import Mathlib

/-!
Verification of the document-search subsystem of the ai-guide-sites repository:
the frontmatter parser and index builder (src/hooks/useSearch.ts, buildIndex),
the linear query matcher (src/hooks/useSearch.ts, search) and the document
retrieval function (src/lib/content.ts, getDocContent).

Strings are modelled as lists of characters; the JavaScript string operations
used by the code (toLowerCase, indexOf, includes, substring, split, join, trim,
replace) are embedded as executable functions on character lists below.
-/

namespace AiGuide

/-- A JavaScript string, modelled as its list of characters. -/
abbrev Str := List Char

deriving instance DecidableEq for Except

/-- Whitespace characters recognised by the JavaScript trim operation
(ASCII whitespace, no-break space, BOM, line and paragraph separators). -/
def isJsWs (c : Char) : Bool :=
  c = ' ' || c = '\t' || c = '\n' || c = '\r' || c.val = 11 || c.val = 12 ||
  c.val = 160 || c.val = 0xFEFF || c.val = 0x2028 || c.val = 0x2029

/-- JavaScript String.prototype.trim: drop whitespace from both ends. -/
def jsTrim (s : Str) : Str :=
  ((s.dropWhile isJsWs).reverse.dropWhile isJsWs).reverse

/-- JavaScript String.prototype.toLowerCase, modelled characterwise. -/
def lowerStr (s : Str) : Str := s.map Char.toLower

/-- JavaScript String.prototype.indexOf: index of the first occurrence of
the second string in the first, or none. -/
def strIndexOf : Str → Str → Option Nat
  | [], needle => if needle.isPrefixOf [] then some 0 else none
  | c :: rest, needle =>
    if needle.isPrefixOf (c :: rest) then some 0
    else (strIndexOf rest needle).map (· + 1)

/-- JavaScript String.prototype.includes, defined from indexOf as the code
observes it (indexOf !== -1). -/
def containsSub (hay needle : Str) : Bool := (strIndexOf hay needle).isSome

/-- JavaScript s.substring(start, stop) for start ≤ stop. -/
def jsSubstring (s : Str) (start stop : Nat) : Str :=
  (s.drop start).take (stop - start)

/-- JavaScript String.prototype.split on a single separator character:
always returns at least one piece, empty string gives one empty piece. -/
def splitOnChar (sep : Char) : Str → List Str
  | [] => [[]]
  | c :: rest =>
    let r := splitOnChar sep rest
    if c = sep then [] :: r
    else
      match r with
      | [] => [[c]]
      | h :: t => (c :: h) :: t

/-- JavaScript Array.prototype.join with a single separator character. -/
def joinWith (sep : Char) : List Str → Str
  | [] => []
  | [s] => s
  | s :: rest => s ++ sep :: joinWith sep rest

/-- JavaScript s.replace(pat, rep) for a plain nonempty string pattern:
replaces the first occurrence only. -/
def replaceFirst (s pat rep : Str) : Str :=
  match strIndexOf s pat with
  | none => s
  | some i => s.take i ++ rep ++ s.drop (i + pat.length)

/-- The quote-stripping replace from useSearch.ts, line 44:
drop one leading and one trailing quote character (single or double). -/
def stripQuotes (s : Str) : Str :=
  let s1 : Str :=
    match s with
    | c :: rest => if c = '\'' || c = '"' then rest else s
    | [] => []
  match s1.reverse with
  | c :: rest => if c = '\'' || c = '"' then rest.reverse else s1
  | [] => s1

/-- Lookup in an association list where a later binding overwrites an
earlier one, as assignment to a JavaScript object property does. -/
def lookupLast {α : Type} (l : List (Str × α)) (k : Str) : Option α :=
  (l.reverse.find? (fun p => p.1 == k)).map (·.2)

/-! ## Data model (useSearch.ts) -/

/-- The matchType tag of a search result: the string union 'title' | 'content'. -/
inductive MatchType where
  | title
  | content
  deriving DecidableEq, Repr

/-- One record of the in-memory index built by buildIndex (useSearch.ts). -/
structure DocItem where
  slug : Str
  title : Str
  description : Str
  content : Str
  deriving DecidableEq, Repr

/-- The SearchResult interface of useSearch.ts. -/
structure SearchResult where
  slug : Str
  title : Str
  description : Str
  matchType : MatchType
  snippet : Str
  deriving DecidableEq, Repr

/-! ## Frontmatter parsing (useSearch.ts lines 27-46, content.ts lines 24-42) -/

/-- The opening frontmatter delimiter with its newline. -/
def fmOpen : Str := '-' :: '-' :: '-' :: ['\n']

/-- The closing frontmatter delimiter as the regex requires it. -/
def fmSep : Str := '\n' :: '-' :: '-' :: '-' :: ['\n']

/-- The frontmatter regex of the code, anchored and with a lazy first group:
the raw text must begin with three hyphens and a newline, and the first
following occurrence of newline-three-hyphens-newline closes the block.
Returns the block and the remainder, or none when the regex does not match. -/
def headerSplit (raw : Str) : Option (Str × Str) :=
  if fmOpen.isPrefixOf raw then
    match strIndexOf (raw.drop 4) fmSep with
    | some i => some ((raw.drop 4).take i, (raw.drop 4).drop (i + 5))
    | none => none
  else none

/-- The metadata key used for titles. -/
def titleKey : Str := 't' :: 'i' :: 't' :: 'l' :: ['e']

/-- The metadata key used for summaries. -/
def descrKey : Str := String.toList "description"

/-- The key: value line scan of useSearch.ts lines 39-42: split each line on
colons, the first piece is the key, the rest re-joined is the value, skip
lines with an empty key, trim both, later lines overwrite earlier ones. -/
def parseMetaLines (metaBlock : Str) : List (Str × Str) :=
  (splitOnChar '\n' metaBlock).foldl
    (fun acc line =>
      match splitOnChar ':' line with
      | [] => acc
      | key :: value =>
        if key.isEmpty then acc
        else acc ++ [(jsTrim key, jsTrim (joinWith ':' value))])
    []

/-- The document loader of buildIndex (useSearch.ts lines 27-48): parse the
frontmatter of one raw asset into a DocItem. Title falls back to the slug and
description to the empty string when the key is absent or its value empty. -/
def parseRaw (slug raw : Str) : DocItem :=
  match headerSplit raw with
  | none => { slug := slug, title := slug, description := [], content := raw }
  | some (metaBlock, body) =>
    let meta := parseMetaLines metaBlock
    let title :=
      match lookupLast meta titleKey with
      | some v => if v.isEmpty then slug else stripQuotes v
      | none => slug
    let descr :=
      match lookupLast meta descrKey with
      | some v => if v.isEmpty then [] else stripQuotes v
      | none => []
    { slug := slug, title := title, description := descr, content := body }

/-- Slug derivation of useSearch.ts line 24: last path segment with the first
occurrence of ".md" removed. -/
def slugOfPath (path : Str) : Str :=
  match (splitOnChar '/' path).getLast? with
  | none => []
  | some last => replaceFirst last (String.toList ".md") []

/-- The result of awaiting one module read: the raw text, or a thrown error. -/
abbrev ReadResult := Except Unit Str

/-- buildIndex (useSearch.ts lines 20-51): read every module in order and
parse it into a DocItem. The loop has no error handling, so a rejected read
propagates and the whole build fails. -/
def buildIndex : List (Str × ReadResult) → Except Unit (List DocItem)
  | [] => .ok []
  | (path, r) :: rest =>
    match r with
    | .error e => .error e
    | .ok raw =>
      match buildIndex rest with
      | .error e => .error e
      | .ok items => .ok (parseRaw (slugOfPath path) raw :: items)

/-! ## Query matcher (useSearch.ts lines 56-99) -/

/-- The per-document match of the forEach body (useSearch.ts lines 66-95):
title match first with snippet = description, otherwise content match with a
windowed snippet, otherwise no hit. The argument q is the lowercased query. -/
def matchDoc (q : Str) (item : DocItem) : Option SearchResult :=
  if containsSub (lowerStr item.title) q then
    some { slug := item.slug, title := item.title,
           description := item.description, matchType := .title,
           snippet := item.description }
  else
    match strIndexOf (lowerStr item.content) q with
    | some contentIndex =>
      let start := contentIndex - 40
      let stop := min item.content.length (contentIndex + 60)
      some { slug := item.slug, title := item.title,
             description := item.description, matchType := .content,
             snippet := String.toList "..." ++ jsSubstring item.content start stop
                        ++ String.toList "..." }
    | none => none

/-- The hit list computed by search for a non-blank query. -/
def searchHits (index : List DocItem) (query : Str) : List SearchResult :=
  index.filterMap (matchDoc (lowerStr query))

/-- search (useSearch.ts lines 56-99) as a pure function from the index and
query to the result list: blank queries yield no hits. -/
def search (index : List DocItem) (query : Str) : List SearchResult :=
  if (jsTrim query).isEmpty then [] else searchHits index query

/-- The state held by the useSearch hook. -/
structure HookState where
  index : List DocItem
  results : List SearchResult
  isSearching : Bool
  deriving DecidableEq, Repr

/-- One invocation of search as a state transition on the hook state: a blank
query only clears the results; otherwise isSearching is set and then cleared
within the same synchronous call and the results are replaced wholesale.
The index is never written. -/
def searchStep (s : HookState) (query : Str) : HookState :=
  if (jsTrim query).isEmpty then { s with results := [] }
  else { s with results := searchHits s.index query, isSearching := false }

/-! ## getDocContent (content.ts lines 16-43) -/

/-- The DocResult interface of content.ts; meta is the parsed key-value list
(later lines overwrite earlier ones on lookup). -/
structure DocResult where
  content : Str
  meta : List (Str × Str)
  deriving DecidableEq, Repr

/-- The module path probed by getDocContent for a slug. -/
def docPath (slug : Str) : Str :=
  String.toList "../contents/" ++ slug ++ String.toList ".md"

/-- getDocContent (content.ts): null when no module exists for the slug,
otherwise await the read (a rejection propagates) and parse the frontmatter,
falling back to the whole raw text with empty meta when the regex fails. -/
def getDocContent (modules : List (Str × ReadResult)) (slug : Str) :
    Except Unit (Option DocResult) :=
  match lookupLast modules (docPath slug) with
  | none => .ok none
  | some (.error e) => .error e
  | some (.ok raw) =>
    match headerSplit raw with
    | some (metaBlock, body) => .ok (some ⟨body, parseMetaLines metaBlock⟩)
    | none => .ok (some ⟨raw, []⟩)

/-! ## Concrete data used to instantiate the theorems -/

/-- A raw asset shaped like the repository's content files. -/
def coreRaw : Str :=
  String.toList
    "---\ntitle: Core Concepts (Foundations)\ndescription: \"LLM theory.\"\n---\nBefore agents, Tokenization matters."

/-- The index record the loader builds from coreRaw. -/
def coreDoc : DocItem := parseRaw (String.toList "core-concepts") coreRaw

/-- The title hit that searching the core document for "core" emits. -/
def coreTitleHit : SearchResult :=
  { slug := String.toList "core-concepts",
    title := String.toList "Core Concepts (Foundations)",
    description := String.toList "LLM theory.",
    matchType := .title,
    snippet := String.toList "LLM theory." }

/-- The content hit that searching the core document for "tokenization"
emits: the window covers the whole 36-character body. -/
def coreContentHit : SearchResult :=
  { slug := String.toList "core-concepts",
    title := String.toList "Core Concepts (Foundations)",
    description := String.toList "LLM theory.",
    matchType := .content,
    snippet := String.toList "...Before agents, Tokenization matters...." }

/-- A 61-character query, longer than the snippet window's right extent. -/
def longQ : Str :=
  String.toList "aaaaaaaaaaaaaaaaaaaaaaaaaaaaaaaaaaaaaaaaaaaaaaaaaaaaaaaaaaaaa"

/-- An index record whose body is exactly the 61-character query. -/
def longDoc : DocItem :=
  { slug := String.toList "long", title := String.toList "t",
    description := [], content := longQ }

/-- A raw asset whose body keeps a three-hyphen horizontal-rule line after
the frontmatter is parsed. -/
def hrRaw : Str := String.toList "---\ntitle: Guide\n---\nIntro\n---\nMore"

/-- A raw asset with a well-formed metadata block carrying quoted title and
description values. -/
def fullRaw : Str :=
  String.toList "---\ntitle: \"Hello World\"\ndescription: 'A guide'\n---\nThe body"

/-- A module list whose first read rejects and whose second succeeds. -/
def badModules : List (Str × ReadResult) :=
  [(String.toList "../contents/alpha.md", Except.error ()),
   (String.toList "../contents/beta.md", Except.ok (String.toList "hello"))]

/-- A module list whose single read succeeds. -/
def goodModules : List (Str × ReadResult) :=
  [(String.toList "../contents/beta.md", Except.ok (String.toList "hello"))]

/-! ## Lemmas about the string primitives -/

theorem isPrefixOf_iff_ex {l m : Str} : l.isPrefixOf m = true ↔ ∃ t, m = l ++ t := by
  induction l generalizing m with
  | nil => simp [List.isPrefixOf]
  | cons c l ih =>
    cases m with
    | nil => simp [List.isPrefixOf]
    | cons d m =>
      simp only [List.isPrefixOf, Bool.and_eq_true, beq_iff_eq, ih, List.cons_append,
        List.cons.injEq]
      constructor
      · rintro ⟨rfl, t, rfl⟩
        exact ⟨t, rfl, rfl⟩
      · rintro ⟨t, rfl, rfl⟩
        exact ⟨rfl, t, rfl⟩

theorem isPrefixOf_take {q l : Str} {k : Nat} (h : q.isPrefixOf l = true)
    (hk : q.length ≤ k) : q.isPrefixOf (l.take k) = true := by
  rcases isPrefixOf_iff_ex.mp h with ⟨t, rfl⟩
  refine isPrefixOf_iff_ex.mpr ⟨t.take (k - q.length), ?_⟩
  rw [List.take_append_eq_append_take, List.take_of_length_le hk]

theorem isPrefixOf_of_take {q l : Str} {k : Nat}
    (h : q.isPrefixOf (l.take k) = true) : q.isPrefixOf l = true := by
  rcases isPrefixOf_iff_ex.mp h with ⟨t, ht⟩
  refine isPrefixOf_iff_ex.mpr ⟨t ++ l.drop k, ?_⟩
  rw [← List.append_assoc, ← ht, List.take_append_drop]

theorem strIndexOf_isPrefix {hay needle : Str} {i : Nat}
    (h : strIndexOf hay needle = some i) :
    needle.isPrefixOf (hay.drop i) = true := by
  induction hay generalizing i with
  | nil =>
    rw [strIndexOf] at h
    split at h
    · rename_i hp
      cases h
      simpa using hp
    · exact absurd h (by simp)
  | cons c rest ih =>
    rw [strIndexOf] at h
    split at h
    · rename_i hp
      cases h
      simpa using hp
    · rcases Option.map_eq_some'.mp h with ⟨j, hj, rfl⟩
      simpa using ih hj

theorem strIndexOf_min {hay needle : Str} {i j : Nat}
    (h : strIndexOf hay needle = some i)
    (hj : needle.isPrefixOf (hay.drop j) = true) : i ≤ j := by
  induction hay generalizing i j with
  | nil =>
    rw [strIndexOf] at h
    split at h
    · cases h
      exact Nat.zero_le j
    · exact absurd h (by simp)
  | cons c rest ih =>
    rw [strIndexOf] at h
    split at h
    · cases h
      exact Nat.zero_le j
    · rename_i hp
      rcases Option.map_eq_some'.mp h with ⟨k, hk, rfl⟩
      cases j with
      | zero => exact absurd (by simpa using hj) hp
      | succ j => exact Nat.succ_le_succ (ih hk (by simpa using hj))

theorem containsSub_of_isPrefix {hay needle : Str} (j : Nat)
    (hj : needle.isPrefixOf (hay.drop j) = true) : containsSub hay needle = true := by
  induction hay generalizing j with
  | nil =>
    simp only [List.drop_nil] at hj
    simp [containsSub, strIndexOf, hj]
  | cons c rest ih =>
    by_cases hp : needle.isPrefixOf (c :: rest) = true
    · simp [containsSub, strIndexOf, hp]
    · cases j with
      | zero => exact absurd (by simpa using hj) hp
      | succ j =>
        have hrest := ih j (by simpa using hj)
        have hp' : needle.isPrefixOf (c :: rest) = false := Bool.eq_false_iff.mpr hp
        simp only [containsSub, strIndexOf, hp', Bool.false_eq_true, if_false,
          Option.isSome_map'] at hrest ⊢
        exact hrest

theorem exists_isPrefix_of_containsSub {hay needle : Str}
    (h : containsSub hay needle = true) :
    ∃ j, needle.isPrefixOf (hay.drop j) = true := by
  unfold containsSub at h
  rcases Option.isSome_iff_exists.mp h with ⟨j, hj⟩
  exact ⟨j, strIndexOf_isPrefix hj⟩

theorem not_containsSub_take {hay needle : Str} {i : Nat}
    (h : strIndexOf hay needle = some i) (hne : needle ≠ []) :
    containsSub (hay.take i) needle = false := by
  rw [Bool.eq_false_iff]
  intro hc
  rcases exists_isPrefix_of_containsSub hc with ⟨j, hj⟩
  rw [List.drop_take] at hj
  have hdrop : needle.isPrefixOf (hay.drop j) = true := isPrefixOf_of_take hj
  have hmin : i ≤ j := strIndexOf_min h hdrop
  rcases isPrefixOf_iff_ex.mp hj with ⟨t, ht⟩
  have hlen : needle.length + t.length ≤ i - j := by
    have := congrArg List.length ht
    simp only [List.length_take, List.length_append] at this
    omega
  have : needle.length = 0 := by omega
  exact hne (List.length_eq_zero.mp this)

theorem containsSub_nil_needle (hay : Str) : containsSub hay [] = true := by
  cases hay <;> simp [containsSub, strIndexOf, List.isPrefixOf]

theorem containsSub_of_middle {x q : Str} (pre post : Str) {j : Nat}
    (hx : q.isPrefixOf (x.drop j) = true) :
    containsSub (pre ++ x ++ post) q = true := by
  by_cases hq : q = []
  · subst hq
    exact containsSub_nil_needle _
  · have hjx : j ≤ x.length := by
      by_contra hlt
      have hnil : x.drop j = [] := List.drop_eq_nil_iff.mpr (by omega)
      rw [hnil] at hx
      rcases isPrefixOf_iff_ex.mp hx with ⟨t, ht⟩
      exact hq (List.append_eq_nil.mp ht.symm).1
    apply containsSub_of_isPrefix (pre.length + j)
    rcases isPrefixOf_iff_ex.mp hx with ⟨t, ht⟩
    refine isPrefixOf_iff_ex.mpr ⟨t ++ post, ?_⟩
    rw [List.append_assoc, List.drop_append, List.drop_append_of_le_length hjx, ht,
      List.append_assoc]

/-! ## Lemmas about the frontmatter regex and the matcher -/

theorem headerSplit_decomp {raw mb body : Str}
    (h : headerSplit raw = some (mb, body)) :
    raw = fmOpen ++ mb ++ fmSep ++ body ∧ containsSub mb fmSep = false := by
  unfold headerSplit at h
  split at h
  case isFalse => exact absurd h (by simp)
  case isTrue hp =>
    rcases heq : strIndexOf (raw.drop 4) fmSep with _ | i <;> rw [heq] at h
    · exact absurd h (by simp)
    · simp only [Option.some.injEq, Prod.mk.injEq] at h
      obtain ⟨hmb, hbody⟩ := h
      rcases isPrefixOf_iff_ex.mp hp with ⟨rest, hraw⟩
      have hdrop : raw.drop 4 = rest := by
        rw [hraw]
        rfl
      have hsep := strIndexOf_isPrefix heq
      rcases isPrefixOf_iff_ex.mp hsep with ⟨tail, htail⟩
      have hdd : ((raw.drop 4).drop i).drop 5 = (raw.drop 4).drop (i + 5) := by
        rw [List.drop_drop]
      have hbody2 : body = tail := by
        rw [← hbody, ← hdd, htail]
        rfl
      constructor
      · rw [hdrop] at hmb htail
        rw [hraw, ← hmb, hbody2]
        conv_lhs => rw [← List.take_append_drop i rest]
        rw [htail]
        simp [List.append_assoc]
      · rw [← hmb]
        exact not_containsSub_take heq (by decide)

theorem jsTrim_eq_nil {s : Str} (h : s.all isJsWs = true) : jsTrim s = [] := by
  unfold jsTrim
  have h1 : s.dropWhile isJsWs = [] :=
    List.dropWhile_eq_nil_iff.mpr (by simpa using h)
  rw [h1]
  rfl

theorem matchDoc_fields {q : Str} {d : DocItem} {r : SearchResult}
    (h : matchDoc q d = some r) :
    r.slug = d.slug ∧ r.title = d.title ∧ r.description = d.description := by
  unfold matchDoc at h
  split at h
  · cases h
    exact ⟨rfl, rfl, rfl⟩
  · split at h
    · cases h
      exact ⟨rfl, rfl, rfl⟩
    · exact absurd h (by simp)

theorem filterMap_map_sublist {α β γ : Type} (f : α → Option β) (g : β → γ)
    (gg : α → γ) (hg : ∀ a b, f a = some b → g b = gg a) (l : List α) :
    ((l.filterMap f).map g).Sublist (l.map gg) := by
  induction l with
  | nil => simp
  | cons a l ih =>
    rcases hfa : f a with _ | b
    · simp only [List.filterMap_cons, hfa, List.map_cons]
      exact ih.cons _
    · simp only [List.filterMap_cons, hfa, List.map_cons]
      rw [hg a b hfa]
      exact ih.cons₂ _

/-! ## Claim theorems -/

/-- C3: for every query string that is empty or consists only of whitespace,
search returns an empty result sequence regardless of the contents of the
collection; search is a total function, so no error is raised. -/
theorem blank_query_yields_no_results (index : List DocItem) (query : Str)
    (h : query.all isJsWs = true) : search index query = [] := by
  unfold search
  rw [jsTrim_eq_nil h]
  rfl

theorem blank_query_yields_no_results_witness :
    search [coreDoc] (String.toList "   ") = [] :=
  blank_query_yields_no_results [coreDoc] (String.toList "   ") (by decide)

/-- C4: when the raw text does not begin with a well-formed metadata block
(the anchored frontmatter regex fails to match), the loader produces the
fallback record: title is the asset identifier, summary is empty and the body
is the whole raw text. parseRaw is a total function, so parsing never fails. -/
theorem no_header_gives_fallback_record (slug raw : Str)
    (h : headerSplit raw = none) :
    parseRaw slug raw =
      { slug := slug, title := slug, description := [], content := raw } := by
  unfold parseRaw
  rw [h]

theorem no_header_gives_fallback_record_witness :
    parseRaw (String.toList "slug1") (String.toList "no frontmatter here") =
      { slug := String.toList "slug1", title := String.toList "slug1",
        description := [], content := String.toList "no frontmatter here" } :=
  no_header_gives_fallback_record (String.toList "slug1")
    (String.toList "no frontmatter here") (by decide)

/-- C8: search is deterministic over an unchanged collection: an invocation
never writes the index and replaces the results wholesale from the index and
the query alone, so a second consecutive invocation with the same query
produces an identical result sequence. -/
theorem search_deterministic (s : HookState) (q : Str) :
    (searchStep (searchStep s q) q).results = (searchStep s q).results ∧
    (searchStep s q).index = s.index ∧
    (searchStep s q).results = search s.index q := by
  unfold searchStep search
  by_cases h : (jsTrim q).isEmpty <;> simp [h]

/-- C9 counterexample: a raw text with a well-formed metadata block (its title
parses to "Guide") whose body, after parsing completes, still contains a line
of three hyphens, and even a full newline-delimited three-hyphen delimiter. -/
theorem body_keeps_delimiter_lines :
    (parseRaw (String.toList "doc") hrRaw).title = String.toList "Guide" ∧
    String.toList "---" ∈
      splitOnChar '\n' (parseRaw (String.toList "doc") hrRaw).content ∧
    containsSub (parseRaw (String.toList "doc") hrRaw).content fmSep = true := by
  decide

/-- C9 amended: when a metadata block is parsed, the block itself never
contains the closing delimiter (the regex group is lazy, so the block ends at
the first delimiter) and the body is exactly the remainder of the raw text
after that first closing delimiter; the body itself may still contain
three-hyphen lines. -/
theorem header_block_free_of_delimiter (raw mb body : Str)
    (h : headerSplit raw = some (mb, body)) :
    containsSub mb fmSep = false ∧ raw = fmOpen ++ mb ++ fmSep ++ body :=
  ⟨(headerSplit_decomp h).2, (headerSplit_decomp h).1⟩

theorem header_block_free_of_delimiter_witness :
    containsSub (String.toList "title: Guide") fmSep = false ∧
    hrRaw = fmOpen ++ String.toList "title: Guide" ++ fmSep ++
      String.toList "Intro\n---\nMore" :=
  header_block_free_of_delimiter hrRaw (String.toList "title: Guide")
    (String.toList "Intro\n---\nMore") (by decide)

/-- C6 counterexample: a module list whose first read rejects and whose second
read succeeds makes the whole index build fail, producing no collection at
all, even though building from the readable asset alone succeeds. -/
theorem read_failure_aborts_whole_build :
    buildIndex badModules = Except.error () ∧
    buildIndex goodModules =
      Except.ok [parseRaw (String.toList "beta") (String.toList "hello")] := by
  decide

/-- C6 amended: the loop of buildIndex has no error handling, so the build
fails exactly when some asset read fails; only when every read succeeds does
the collection contain one record per asset, in enumeration order. -/
theorem buildIndex_fails_iff_some_read_fails (mods : List (Str × ReadResult)) :
    (buildIndex mods = Except.error () ↔
      ∃ p, (p, (Except.error () : ReadResult)) ∈ mods) ∧
    ((∀ pr ∈ mods, pr.2 ≠ Except.error ()) →
      buildIndex mods = Except.ok (mods.map
        (fun pr => parseRaw (slugOfPath pr.1) (pr.2.toOption.getD [])))) := by
  induction mods with
  | nil =>
    constructor
    · simp [buildIndex]
    · intro _
      rfl
  | cons pr rest ih =>
    obtain ⟨p, r⟩ := pr
    cases r with
    | error e =>
      cases e
      constructor
      · simp [buildIndex]
      · intro hall
        exact absurd (rfl : (Except.error () : ReadResult) = Except.error ())
          (hall (p, Except.error ()) (by simp))
    | ok raw =>
      constructor
      · rcases hbr : buildIndex rest with e | items
        · cases e
          simp only [buildIndex, hbr]
          constructor
          · intro _
            rcases ih.1.mp hbr with ⟨q, hq⟩
            exact ⟨q, List.mem_cons_of_mem _ hq⟩
          · intro _
            trivial
        · simp only [buildIndex, hbr]
          constructor
          · intro hcon
            exact absurd hcon (by simp)
          · rintro ⟨q, hq⟩
            rcases List.mem_cons.mp hq with heq | hmem
            · exact absurd (congrArg Prod.snd heq.symm) (by simp)
            · rw [ih.1.mpr ⟨q, hmem⟩] at hbr
              exact absurd hbr (by simp)
      · intro hall
        have htl : buildIndex rest = Except.ok (rest.map
            (fun pr => parseRaw (slugOfPath pr.1) (pr.2.toOption.getD []))) :=
          ih.2 (fun pr hpr => hall pr (List.mem_cons_of_mem _ hpr))
        simp only [buildIndex, htl, List.map_cons]
        rfl

theorem buildIndex_fails_iff_some_read_fails_witness :
    buildIndex goodModules = Except.ok (goodModules.map
      (fun pr => parseRaw (slugOfPath pr.1) (pr.2.toOption.getD []))) :=
  (buildIndex_fails_iff_some_read_fails goodModules).2 (by decide)

/-- C10: getDocContent returns null exactly when no module exists at the
path built from the slug; when a module exists and its read succeeds it
returns a DocResult; an unknown slug returns null rather than throwing. -/
theorem getDocContent_none_iff_unknown (modules : List (Str × ReadResult))
    (slug : Str) :
    (getDocContent modules slug = Except.ok none ↔
      lookupLast modules (docPath slug) = none) ∧
    (∀ raw, lookupLast modules (docPath slug) = some (Except.ok raw) →
      ∃ dr, getDocContent modules slug = Except.ok (some dr)) := by
  constructor
  · rcases h : lookupLast modules (docPath slug) with _ | r
    · simp [getDocContent, h]
    · rcases r with e | raw
      · simp [getDocContent, h]
      · rcases hh : headerSplit raw with _ | pq
        · simp [getDocContent, h, hh]
        · obtain ⟨mb, body⟩ := pq
          simp [getDocContent, h, hh]
  · intro raw h
    rcases hh : headerSplit raw with _ | pq
    · exact ⟨⟨raw, []⟩, by simp [getDocContent, h, hh]⟩
    · obtain ⟨mb, body⟩ := pq
      exact ⟨⟨body, parseMetaLines mb⟩, by simp [getDocContent, h, hh]⟩

theorem getDocContent_none_iff_unknown_witness :
    getDocContent goodModules (String.toList "gamma") = Except.ok none ∧
    (∃ dr, getDocContent goodModules (String.toList "beta") =
      Except.ok (some dr)) :=
  ⟨(getDocContent_none_iff_unknown goodModules (String.toList "gamma")).1.mpr
      (by decide),
   (getDocContent_none_iff_unknown goodModules (String.toList "beta")).2
      (String.toList "hello") (by decide)⟩

/-- C1: when the lowercased title contains the lowercased (non-blank) query,
the matcher emits for that document exactly one hit, tagged title, with
snippet equal to the document's summary, whatever the body contains; in the
full scan the document contributes exactly that one hit, in its position. -/
theorem title_match_emits_one_title_hit (d : DocItem) (query : Str)
    (pre post : List DocItem)
    (hq : (jsTrim query).isEmpty = false)
    (ht : containsSub (lowerStr d.title) (lowerStr query) = true) :
    matchDoc (lowerStr query) d =
      some { slug := d.slug, title := d.title, description := d.description,
             matchType := MatchType.title, snippet := d.description } ∧
    search (pre ++ d :: post) query =
      search pre query ++
        { slug := d.slug, title := d.title, description := d.description,
          matchType := MatchType.title, snippet := d.description } ::
        search post query := by
  have hmd : matchDoc (lowerStr query) d =
      some { slug := d.slug, title := d.title, description := d.description,
             matchType := MatchType.title, snippet := d.description } := by
    unfold matchDoc
    rw [ht]
    rfl
  refine ⟨hmd, ?_⟩
  simp [search, searchHits, hq, List.filterMap_append, List.filterMap_cons, hmd]

theorem title_match_emits_one_title_hit_witness :
    matchDoc (lowerStr (String.toList "core")) coreDoc = some coreTitleHit ∧
    search ([] ++ coreDoc :: []) (String.toList "core") =
      search [] (String.toList "core") ++
        coreTitleHit :: search [] (String.toList "core") :=
  title_match_emits_one_title_hit coreDoc (String.toList "core") [] []
    (by decide) (by decide)

/-- C7: the hit sequence follows the order of the collection (projected onto
the fields copied from the documents, it is a sublist of the projected
collection) and every matching document contributes its hit; no result-count
limit or pagination is applied. -/
theorem search_preserves_order_and_is_complete (index : List DocItem)
    (query : Str) (hq : (jsTrim query).isEmpty = false) :
    ((search index query).map
        (fun r => (r.slug, r.title, r.description))).Sublist
      (index.map (fun d => (d.slug, d.title, d.description))) ∧
    (∀ d ∈ index, ∀ r, matchDoc (lowerStr query) d = some r →
      r ∈ search index query) := by
  have hs : search index query = index.filterMap (matchDoc (lowerStr query)) := by
    simp [search, searchHits, hq]
  constructor
  · rw [hs]
    refine filterMap_map_sublist _ _ _ (fun d r h => ?_) index
    obtain ⟨h1, h2, h3⟩ := matchDoc_fields h
    rw [h1, h2, h3]
  · intro d hd r hr
    rw [hs]
    exact List.mem_filterMap.mpr ⟨d, hd, hr⟩

theorem search_preserves_order_and_is_complete_witness :
    coreContentHit ∈ search [coreDoc] (String.toList "tokenization") :=
  (search_preserves_order_and_is_complete [coreDoc]
      (String.toList "tokenization") (by decide)).2
    coreDoc (by simp) coreContentHit (by decide)

/-- C2: when the lowercased body but not the lowercased title contains the
lowercased (non-blank) query, the emitted hit is tagged content and its
snippet is "..." plus the body substring from max(0, i-40) (Nat subtraction
clamps exactly as Math.max does) to min(bodyLength, i+60) plus "...", where i
is the first occurrence index; when the query is at most 60 characters long,
the snippet contains that occurrence case-insensitively. -/
theorem content_match_snippet_window (d : DocItem) (query : Str) (i : Nat)
    (hq : (jsTrim query).isEmpty = false)
    (ht : containsSub (lowerStr d.title) (lowerStr query) = false)
    (hc : strIndexOf (lowerStr d.content) (lowerStr query) = some i) :
    search [d] query =
      [{ slug := d.slug, title := d.title, description := d.description,
         matchType := MatchType.content,
         snippet := String.toList "..." ++
           jsSubstring d.content (i - 40) (min d.content.length (i + 60)) ++
           String.toList "..." }] ∧
    (query.length ≤ 60 →
      containsSub
        (lowerStr (String.toList "..." ++
          jsSubstring d.content (i - 40) (min d.content.length (i + 60)) ++
          String.toList "..."))
        (lowerStr query) = true) := by
  have hmd : matchDoc (lowerStr query) d =
      some { slug := d.slug, title := d.title, description := d.description,
             matchType := MatchType.content,
             snippet := String.toList "..." ++
               jsSubstring d.content (i - 40) (min d.content.length (i + 60)) ++
               String.toList "..." } := by
    unfold matchDoc
    rw [ht, hc]
    rfl
  refine ⟨?_, ?_⟩
  · simp [search, searchHits, hq, List.filterMap_cons, hmd]
  · intro hq60
    set s := i - 40 with hs
    set stop := min d.content.length (i + 60) with hstop
    have hpre := strIndexOf_isPrefix hc
    have hqnil : query ≠ [] := by
      rintro rfl
      simp [jsTrim] at hq
    have hqlen : (lowerStr query).length = query.length := List.length_map ..
    have hLlen : (lowerStr d.content).length = d.content.length := List.length_map ..
    have hqpos : 0 < query.length := List.length_pos.mpr hqnil
    rcases isPrefixOf_iff_ex.mp hpre with ⟨t, htL⟩
    have hile : i ≤ (lowerStr d.content).length := by
      by_contra hgt
      have hnil : (lowerStr d.content).drop i = [] :=
        List.drop_eq_nil_iff.mpr (by omega)
      rw [hnil] at htL
      exact hqnil (List.map_eq_nil_iff.mp (List.append_eq_nil.mp htL.symm).1)
    have hin : i + (lowerStr query).length ≤ (lowerStr d.content).length := by
      have hlen := congrArg List.length htL
      simp only [List.length_drop, List.length_append] at hlen
      omega
    have hdots : List.map Char.toLower (String.toList "...") =
        String.toList "..." := by decide
    have hlsplit : lowerStr (String.toList "..." ++
        jsSubstring d.content s stop ++ String.toList "...") =
        String.toList "..." ++ jsSubstring (lowerStr d.content) s stop ++
        String.toList "..." := by
      unfold lowerStr jsSubstring
      rw [List.map_append, List.map_append, hdots, List.map_take,
        List.map_drop]
    rw [hlsplit]
    have hwin : (jsSubstring (lowerStr d.content) s stop).drop (i - s) =
        ((lowerStr d.content).drop i).take (stop - i) := by
      unfold jsSubstring
      rw [List.drop_take, List.drop_drop]
      congr 1
      · omega
      · congr 1
        omega
    have hx : (lowerStr query).isPrefixOf
        ((jsSubstring (lowerStr d.content) s stop).drop (i - s)) = true := by
      rw [hwin]
      exact isPrefixOf_take hpre (by omega)
    exact containsSub_of_middle (String.toList "...") (String.toList "...") hx

theorem content_match_snippet_window_witness :
    containsSub
      (lowerStr (String.toList "..." ++
        jsSubstring coreDoc.content (15 - 40)
          (min coreDoc.content.length (15 + 60)) ++
        String.toList "..."))
      (lowerStr (String.toList "Tokenization")) = true :=
  (content_match_snippet_window coreDoc (String.toList "Tokenization") 15
      (by decide) (by decide) (by decide)).2 (by decide)

/-- C5 counterexample: in a well-formed metadata block whose title key has an
empty value, the parsed metadata does carry the title key with value "", yet
the record's title is the asset identifier, not that (quote-stripped) value:
the empty string is falsy in the code's truthiness check, so the claim's
unconditional extraction fails. -/
theorem empty_value_falls_back :
    lookupLast (parseMetaLines (String.toList "title:\ndescription: d"))
      titleKey = some [] ∧
    (parseRaw (String.toList "doc")
        (String.toList "---\ntitle:\ndescription: d\n---\nB")).title =
      String.toList "doc" ∧
    (parseRaw (String.toList "doc")
        (String.toList "---\ntitle:\ndescription: d\n---\nB")).title ≠
      stripQuotes [] := by decide

/-- C5 amended: for raw texts beginning with a well-formed metadata block, parsing
extracts exactly the values of the title and description keys (the code's
key: value scan: the text after the first colon, trimmed, with later
duplicate lines overwriting earlier ones) when those values are non-empty,
stripping one optional surrounding quote character from each end, and the
body is exactly the remainder of the raw text after the closing delimiter. -/
theorem header_extracts_title_and_summary (slug raw mb body tv dv : Str)
    (hsp : headerSplit raw = some (mb, body))
    (htv : lookupLast (parseMetaLines mb) titleKey = some tv) (htne : tv ≠ [])
    (hdv : lookupLast (parseMetaLines mb) descrKey = some dv) (hdne : dv ≠ []) :
    parseRaw slug raw =
      { slug := slug, title := stripQuotes tv, description := stripQuotes dv,
        content := body } ∧
    raw = fmOpen ++ mb ++ fmSep ++ body := by
  constructor
  · have htvf : tv.isEmpty = false := by
      cases tv
      · exact absurd rfl htne
      · rfl
    have hdvf : dv.isEmpty = false := by
      cases dv
      · exact absurd rfl hdne
      · rfl
    simp only [parseRaw, hsp, htv, hdv, htvf, hdvf, Bool.false_eq_true, if_false]
  · exact (headerSplit_decomp hsp).1

theorem header_extracts_title_and_summary_witness :
    parseRaw (String.toList "guide") fullRaw =
      { slug := String.toList "guide",
        title := stripQuotes (String.toList "\"Hello World\""),
        description := stripQuotes (String.toList "'A guide'"),
        content := String.toList "The body" } ∧
    fullRaw = fmOpen ++
      String.toList "title: \"Hello World\"\ndescription: 'A guide'" ++
      fmSep ++ String.toList "The body" :=
  header_extracts_title_and_summary (String.toList "guide") fullRaw
    (String.toList "title: \"Hello World\"\ndescription: 'A guide'")
    (String.toList "The body")
    (String.toList "\"Hello World\"") (String.toList "'A guide'")
    (by decide) (by decide) (by decide) (by decide) (by decide)

/-- C2 counterexample: a 61-character query occurring at index 0 of a
61-character body is truncated by the 60-character right window bound, so the
emitted content hit's snippet does not contain the query case-insensitively:
the claim's containment clause fails for queries longer than 60 characters. -/
theorem long_query_snippet_truncated :
    (matchDoc (lowerStr longQ) longDoc).map
        (fun r => (r.matchType, containsSub (lowerStr r.snippet) (lowerStr longQ))) =
      some (MatchType.content, false) := by decide

end AiGuide
